import Mathlib

/-!
# Verification of the SVB-Collapse stress-test engine

A shallow embedding of `src/app.py`: the bond pricing function
`get_bond_price`, the portfolio valuation pipeline (initial price, shocked
price, loss, loss percentage, aggregate loss fraction), and the three-tier
liquidity waterfall (cash → AFS → HTM).  Python floats are modelled by exact
rationals; a Python exception (IndexError on an empty cash-flow list,
ZeroDivisionError on division by zero) is modelled by `Option` / `Except`.
-/

namespace SVB

/-- The discounted sum from `get_bond_price`:
`sum([cf / ((1 + yield_rate) ** (t + 1)) for t, cf in enumerate(cash_flows)])`,
with `t` the running 0-based index. -/
def discountedSum (y : ℚ) : ℕ → List ℚ → ℚ
  | _, [] => 0
  | t, cf :: rest => cf / (1 + y) ^ (t + 1) + discountedSum y (t + 1) rest

/-- `get_bond_price(face, coupon, maturity, yield_rate)` (src/app.py lines 65–69).
The Python builds `cash_flows = [face*coupon] * maturity` and then does
`cash_flows[-1] += face`, which raises IndexError when the list is empty
(`maturity < 1`); that abort is modelled as `none`.  For `maturity ≥ 1` the
cash-flow list is `[c, …, c, c + face]` with `maturity - 1` leading coupons. -/
def get_bond_price (face coupon : ℚ) (maturity : ℤ) (yield_rate : ℚ) : Option ℚ :=
  let c := face * coupon
  let n := maturity.toNat
  if n = 0 then none
  else some (discountedSum yield_rate 0 (List.replicate (n - 1) c ++ [c + face]))

/-- The value `get_bond_price` returns for a maturity of `m ≥ 1` periods. -/
def priceVal (face coupon y : ℚ) (m : ℕ) : ℚ :=
  discountedSum y 0 (List.replicate (m - 1) (face * coupon) ++ [face * coupon + face])

/-- The cash-flow schedule as the spec words it: `face * coupon` each period,
plus the face returned with the final coupon at period `maturity`. -/
def specCashFlow (face coupon : ℚ) (m t : ℕ) : ℚ :=
  if t = m then face * coupon + face else face * coupon

/-- The spec's closed-form price: the sum over periods `t = 1..maturity` of
`CF_t / (1 + yieldRate)^t`. -/
def spec_price (face coupon : ℚ) (m : ℕ) (y : ℚ) : ℚ :=
  ∑ t in Finset.Icc 1 m, specCashFlow face coupon m t / (1 + y) ^ t

/-! ## Portfolio valuation pipeline (src/app.py lines 72–85) -/

/-- One row of `portfolio_data` / the DataFrame `df`
(columns `Face`, `Coupon`, `Maturity`, `Base_Yield`; `Asset_Name` is
display-only and omitted). -/
structure Position where
  face : ℚ
  coupon : ℚ
  maturity : ℤ
  base_yield : ℚ
deriving DecidableEq, Repr

/-- The derived columns added to `df` in lines 81–85. -/
structure Valuation where
  initial_price : ℚ
  new_yield : ℚ
  shocked_price : ℚ
  loss : ℚ
  loss_pct : ℚ
deriving DecidableEq, Repr

/-- Lines 81–85 for a single row: `Initial_Price`, `New_Yield`
(`Base_Yield + rate_shock_bps / 10000`), `Shocked_Price`,
`Loss = Shocked_Price - Initial_Price`, `Loss_Pct = Loss / Initial_Price * 100`. -/
def valuate (rate_shock_bps : ℚ) (p : Position) : Option Valuation := do
  let ip ← get_bond_price p.face p.coupon p.maturity p.base_yield
  let ny := p.base_yield + rate_shock_bps / 10000
  let sp ← get_bond_price p.face p.coupon p.maturity ny
  pure ⟨ip, ny, sp, sp - ip, (sp - ip) / ip * 100⟩

/-- `df.apply` row by row over the whole catalog; `none` as soon as any row
aborts (an exception in one row aborts the whole evaluation). -/
def evaluate_catalog : List Position → ℚ → Option (List Valuation)
  | [], _ => some []
  | p :: rest, rate_shock_bps => do
      let v ← valuate rate_shock_bps p
      let vs ← evaluate_catalog rest rate_shock_bps
      pure (v :: vs)

/-- Line 113: `htm_loss_pct = abs(df['Loss'].sum() / df['Initial_Price'].sum())`. -/
def htm_loss_pct_of (vals : List Valuation) : ℚ :=
  |(vals.map Valuation.loss).sum / (vals.map Valuation.initial_price).sum|

/-- The fixed catalog `portfolio_data` (lines 72–77). -/
def portfolio_data : List Position :=
  [⟨5000, 0.0175, 10, 0.0175⟩,
   ⟨3000, 0.0200, 30, 0.0200⟩,
   ⟨2000, 0.0150, 5, 0.0150⟩,
   ⟨5000, 0.0400, 10, 0.0400⟩]

/-! ## Liquidity waterfall (src/app.py lines 87–119) -/

/-- Balance-sheet constants (lines 88–91). -/
def total_deposits : ℚ := 180000
def initial_equity : ℚ := 15000
def cash_reserves : ℚ := 15000
def afs_assets : ℚ := 25000

/-- Line 93: `withdrawal_amount = total_deposits * (withdrawal_pct / 100)`. -/
def withdrawal_amount (withdrawal_pct : ℚ) : ℚ :=
  total_deposits * (withdrawal_pct / 100)

/-- Line 98: `cash_used = min(cash_reserves, remaining_withdrawal)`. -/
def cash_used (withdrawal_pct : ℚ) : ℚ :=
  min cash_reserves (withdrawal_amount withdrawal_pct)

/-- Line 99: the withdrawal demand left after the cash tier. -/
def remaining_after_cash (withdrawal_pct : ℚ) : ℚ :=
  withdrawal_amount withdrawal_pct - cash_used withdrawal_pct

/-- Line 103: `afs_needed = remaining_withdrawal / 0.90`. -/
def afs_needed (withdrawal_pct : ℚ) : ℚ :=
  remaining_after_cash withdrawal_pct / 0.90

/-- Lines 101–111: the AFS loss realized (0 when the tier is not engaged). -/
def afs_loss_realized (withdrawal_pct : ℚ) : ℚ :=
  if 0 < remaining_after_cash withdrawal_pct then
    if afs_needed withdrawal_pct ≤ afs_assets then afs_needed withdrawal_pct * 0.10
    else afs_assets * 0.10
  else 0

/-- Lines 101–111: the withdrawal demand left after the AFS tier. -/
def remaining_after_afs (withdrawal_pct : ℚ) : ℚ :=
  if 0 < remaining_after_cash withdrawal_pct then
    if afs_needed withdrawal_pct ≤ afs_assets then 0
    else remaining_after_cash withdrawal_pct - afs_assets * 0.90
  else remaining_after_cash withdrawal_pct

/-- The Python exception raised by `remaining_withdrawal / (1 - htm_loss_pct)`
when the denominator is zero (line 117). -/
inductive WaterfallError where
  | zeroDivisionError
deriving DecidableEq, Repr

/-- The scalar outputs of the bank-run logic (lines 93–119). -/
structure WaterfallResult where
  withdrawal_amount : ℚ
  cash_used : ℚ
  afs_loss_realized : ℚ
  htm_face_needed : ℚ
  htm_loss_realized : ℚ
  current_equity : ℚ
deriving DecidableEq, Repr

/-- Lines 93–119: the full three-tier waterfall.  `current_equity` starts at
`initial_equity`, is reduced by the AFS loss inside the AFS branch and by the
HTM loss inside the HTM branch; `htm_face_needed` divides by
`1 - htm_loss_pct`, raising ZeroDivisionError when that is zero. -/
def run_waterfall (withdrawal_pct htm_loss_pct : ℚ) :
    Except WaterfallError WaterfallResult :=
  let equity_after_afs := initial_equity - afs_loss_realized withdrawal_pct
  if 0 < remaining_after_afs withdrawal_pct then
    if 1 - htm_loss_pct = 0 then .error .zeroDivisionError
    else
      let htm_face_needed := remaining_after_afs withdrawal_pct / (1 - htm_loss_pct)
      let htm_loss_realized := htm_face_needed * htm_loss_pct
      .ok ⟨withdrawal_amount withdrawal_pct, cash_used withdrawal_pct,
        afs_loss_realized withdrawal_pct, htm_face_needed, htm_loss_realized,
        equity_after_afs - htm_loss_realized⟩
  else
    .ok ⟨withdrawal_amount withdrawal_pct, cash_used withdrawal_pct,
      afs_loss_realized withdrawal_pct, 0, 0, equity_after_afs⟩

/-- The scenario result bundle: per-position valuations, the aggregate loss
fraction, and the waterfall outcome. -/
structure ScenarioResult where
  valuations : List Valuation
  htm_loss_pct : ℚ
  waterfall : Except WaterfallError WaterfallResult
deriving Repr

/-- One full scenario evaluation of src/app.py: value the fixed catalog at the
given shock, form the aggregate loss fraction, run the waterfall. -/
def run_scenario (rate_shock_bps withdrawal_pct : ℚ) : Option ScenarioResult :=
  (evaluate_catalog portfolio_data rate_shock_bps).map fun vals =>
    ⟨vals, htm_loss_pct_of vals, run_waterfall withdrawal_pct (htm_loss_pct_of vals)⟩

/-! ## Lemmas -/

lemma get_bond_price_eq (face coupon : ℚ) (maturity : ℤ) (y : ℚ)
    (h : 1 ≤ maturity) :
    get_bond_price face coupon maturity y =
      some (priceVal face coupon y maturity.toNat) := by
  have hn : maturity.toNat ≠ 0 := by omega
  simp [get_bond_price, priceVal, hn]

lemma get_bond_price_none (face coupon : ℚ) (maturity : ℤ) (y : ℚ)
    (h : maturity < 1) :
    get_bond_price face coupon maturity y = none := by
  have hn : maturity.toNat = 0 := by omega
  simp [get_bond_price, hn]

/-- Shifting the running index divides every term by `1 + y`. -/
lemma discountedSum_shift (y : ℚ) (l : List ℚ) :
    ∀ t : ℕ, discountedSum y (t + 1) l = discountedSum y t l / (1 + y) := by
  induction l with
  | nil => intro t; simp [discountedSum]
  | cons cf rest ih =>
      intro t
      simp only [discountedSum, ih (t + 1), add_div]
      congr 1
      rw [pow_succ, div_div]

lemma discountedSum_replicate_append (y a b : ℚ) :
    ∀ (k t : ℕ), discountedSum y t (List.replicate k a ++ [b]) =
      (∑ i in Finset.range k, a / (1 + y) ^ (t + i + 1)) + b / (1 + y) ^ (t + k + 1) := by
  intro k
  induction k with
  | zero => intro t; simp [discountedSum]
  | succ k ih =>
      intro t
      rw [List.replicate_succ, List.cons_append]
      show a / (1 + y) ^ (t + 1) + discountedSum y (t + 1) (List.replicate k a ++ [b]) = _
      rw [ih (t + 1), Finset.sum_range_succ']
      have hs : (∑ i in Finset.range k, a / (1 + y) ^ (t + 1 + i + 1))
          = ∑ i in Finset.range k, a / (1 + y) ^ (t + (i + 1) + 1) := by
        refine Finset.sum_congr rfl fun i _ => ?_
        have h1 : t + 1 + i + 1 = t + (i + 1) + 1 := by omega
        rw [h1]
      have hb : t + 1 + k + 1 = t + (k + 1) + 1 := by omega
      have ha : t + 1 = t + 0 + 1 := by omega
      rw [hs, hb, ha]
      ring

/-- Closed form of the implementation's price: `m - 1` discounted coupons plus
the discounted final coupon-and-face payment. -/
lemma priceVal_eq (face coupon y : ℚ) (m : ℕ) (hm : 1 ≤ m) :
    priceVal face coupon y m =
      (∑ i in Finset.range (m - 1), (face * coupon) / (1 + y) ^ (i + 1)) +
        (face * coupon + face) / (1 + y) ^ m := by
  have h := discountedSum_replicate_append y (face * coupon) (face * coupon + face) (m - 1) 0
  have hm' : m - 1 + 1 = m := by omega
  simpa [priceVal, hm'] using h

/-- The implementation agrees with the spec's closed form. -/
lemma priceVal_eq_spec_price (face coupon y : ℚ) (m : ℕ) (hm : 1 ≤ m) :
    priceVal face coupon y m = spec_price face coupon m y := by
  rw [priceVal_eq face coupon y m hm, spec_price, ← Nat.Ico_succ_right,
    Finset.sum_Ico_eq_sum_range]
  have hm' : m + 1 - 1 = m := by omega
  rw [hm']
  have hsplit : m = (m - 1) + 1 := by omega
  rw [hsplit, Finset.sum_range_succ, ← hsplit]
  congr 1
  · refine Finset.sum_congr rfl fun i hi => ?_
    have hi' : i < m - 1 := Finset.mem_range.mp hi
    have hne : i + 1 ≠ m := by omega
    simp [specCashFlow, hne, add_comm 1 i]
  · have heq : 1 + (m - 1) = m := by omega
    simp [specCashFlow, heq]

/-- Base case: a one-period bond is a single discounted payment. -/
lemma priceVal_one (face coupon y : ℚ) :
    priceVal face coupon y 1 = (face * coupon + face) / (1 + y) := by
  simp [priceVal, discountedSum]

/-- Adding a period discounts the whole schedule once more and prepends a
coupon: `P(m+1) = (face*coupon + P(m)) / (1 + y)`. -/
lemma priceVal_succ (face coupon y : ℚ) (m : ℕ) (hm : 1 ≤ m) :
    priceVal face coupon y (m + 1) = (face * coupon + priceVal face coupon y m) / (1 + y) := by
  have hrep : m + 1 - 1 = (m - 1) + 1 := by omega
  rw [priceVal, hrep, List.replicate_succ, List.cons_append]
  show face * coupon / (1 + y) ^ (0 + 1) +
      discountedSum y (0 + 1) (List.replicate (m - 1) (face * coupon) ++ [face * coupon + face]) = _
  rw [discountedSum_shift]
  rw [show (0 : ℕ) + 1 = 1 from rfl, pow_one]
  rw [priceVal, add_div]

/-- The price is strictly positive for a genuine position at a sane yield. -/
lemma priceVal_pos (face coupon y : ℚ) (m : ℕ) (hm : 1 ≤ m)
    (hf : 0 < face) (hc : 0 ≤ coupon) (hy : -1 < y) :
    0 < priceVal face coupon y m := by
  have h1y : (0 : ℚ) < 1 + y := by linarith
  rw [priceVal_eq face coupon y m hm]
  have hcoup : 0 ≤ face * coupon := mul_nonneg hf.le hc
  refine add_pos_of_nonneg_of_pos (Finset.sum_nonneg fun i _ => ?_) ?_
  · exact div_nonneg hcoup (pow_pos h1y _).le
  · exact div_pos (by linarith) (pow_pos h1y _)

/-- Price is strictly decreasing in the yield (inverse price/yield relation). -/
lemma priceVal_strictAnti (face coupon y₁ y₂ : ℚ) (m : ℕ) (hm : 1 ≤ m)
    (hf : 0 < face) (hc : 0 ≤ coupon) (hy₁ : -1 < y₁) (h12 : y₁ < y₂) :
    priceVal face coupon y₂ m < priceVal face coupon y₁ m := by
  have h1 : (0 : ℚ) < 1 + y₁ := by linarith
  have h2 : (0 : ℚ) < 1 + y₂ := by linarith
  have hlt : 1 + y₁ < 1 + y₂ := by linarith
  have hcoup : 0 ≤ face * coupon := mul_nonneg hf.le hc
  rw [priceVal_eq face coupon y₁ m hm, priceVal_eq face coupon y₂ m hm]
  have hpow : ∀ k : ℕ, (1 + y₁) ^ (k + 1) < (1 + y₂) ^ (k + 1) := fun k =>
    pow_lt_pow_left₀ hlt h1.le (Nat.succ_ne_zero k)
  refine add_lt_add_of_le_of_lt (Finset.sum_le_sum fun i _ => ?_) ?_
  · exact div_le_div_of_nonneg_left hcoup (pow_pos h1 _) (hpow i).le
  · have hmpow : (1 + y₁) ^ m < (1 + y₂) ^ m := by
      have hm' : m = (m - 1) + 1 := by omega
      rw [hm']; exact hpow (m - 1)
    exact div_lt_div_of_pos_left (by linarith) (pow_pos h1 _) hmpow

/-- Price is antitone (non-strict) in the yield, allowing `face = 0`. -/
lemma priceVal_anti (face coupon y₁ y₂ : ℚ) (m : ℕ) (hm : 1 ≤ m)
    (hf : 0 ≤ face) (hc : 0 ≤ coupon) (hy₁ : -1 < y₁) (h12 : y₁ ≤ y₂) :
    priceVal face coupon y₂ m ≤ priceVal face coupon y₁ m := by
  rcases eq_or_lt_of_le h12 with rfl | hlt
  · exact le_rfl
  rcases eq_or_lt_of_le hf with rfl | hfpos
  · have hz : ∀ y : ℚ, priceVal 0 coupon y m = 0 := by
      intro y
      rw [priceVal_eq 0 coupon y m hm]
      simp
    rw [hz, hz]
  · exact (priceVal_strictAnti face coupon y₁ y₂ m hm hfpos hc hy₁ hlt).le

/-- Par pricing: discounting at the coupon rate recovers the face exactly. -/
lemma priceVal_par (face coupon : ℚ) (m : ℕ) (hm : 1 ≤ m) (hc : 1 + coupon ≠ 0) :
    priceVal face coupon coupon m = face := by
  induction m with
  | zero => omega
  | succ k ih =>
      rcases Nat.eq_zero_or_pos k with h0 | hk
      · subst h0
        rw [priceVal_one]
        field_simp
        ring
      · rw [priceVal_succ face coupon coupon k hk, ih hk]
        field_simp
        ring

/-- Below-par bound: when the discount rate exceeds the coupon rate, the price
stays strictly above the perpetuity value `face * coupon / y`. -/
lemma priceVal_gt_perpetuity (face coupon y : ℚ) (m : ℕ) (hm : 1 ≤ m)
    (hf : 0 < face) (hc : 0 ≤ coupon) (hy : coupon < y) :
    face * coupon / y < priceVal face coupon y m := by
  have hy0 : (0 : ℚ) < y := lt_of_le_of_lt hc hy
  have h1y : (0 : ℚ) < 1 + y := by linarith
  induction m with
  | zero => omega
  | succ k ih =>
      rcases Nat.eq_zero_or_pos k with h0 | hk
      · subst h0
        rw [priceVal_one, div_lt_div_iff₀ hy0 h1y]
        nlinarith
      · rw [priceVal_succ face coupon y k hk]
        have hlt := ih hk
        rw [lt_div_iff₀ h1y]
        have hKy : face * coupon / y * y = face * coupon := by
          field_simp
        nlinarith [hlt]

/-- When the discount rate exceeds the coupon rate, extending the maturity by
one period strictly lowers the price. -/
lemma priceVal_succ_lt (face coupon y : ℚ) (m : ℕ) (hm : 1 ≤ m)
    (hf : 0 < face) (hc : 0 ≤ coupon) (hy : coupon < y) :
    priceVal face coupon y (m + 1) < priceVal face coupon y m := by
  have hy0 : (0 : ℚ) < y := lt_of_le_of_lt hc hy
  have h1y : (0 : ℚ) < 1 + y := by linarith
  have hperp := priceVal_gt_perpetuity face coupon y m hm hf hc hy
  rw [priceVal_succ face coupon y m hm, div_lt_iff₀ h1y]
  have hKy : face * coupon / y * y = face * coupon := by field_simp
  nlinarith [hperp]

/-- When the discount rate exceeds the coupon rate, the price is strictly
decreasing in the maturity. -/
lemma priceVal_maturity_strictAnti (face coupon y : ℚ) (m₁ m₂ : ℕ)
    (hm₁ : 1 ≤ m₁) (h12 : m₁ < m₂)
    (hf : 0 < face) (hc : 0 ≤ coupon) (hy : coupon < y) :
    priceVal face coupon y m₂ < priceVal face coupon y m₁ := by
  induction m₂ with
  | zero => omega
  | succ k ih =>
      rcases Nat.lt_or_ge m₁ k with hlt | hge
      · exact lt_trans
          (priceVal_succ_lt face coupon y k (by omega) hf hc hy) (ih hlt)
      · have hk : m₁ = k := by omega
        subst hk
        exact priceVal_succ_lt face coupon y m₁ hm₁ hf hc hy

/-- Explicit form of one valuation row for a position with `maturity ≥ 1`. -/
lemma valuate_eq (r : ℚ) (p : Position) (h : 1 ≤ p.maturity) :
    valuate r p = some
      { initial_price := priceVal p.face p.coupon p.base_yield p.maturity.toNat
        new_yield := p.base_yield + r / 10000
        shocked_price := priceVal p.face p.coupon (p.base_yield + r / 10000) p.maturity.toNat
        loss := priceVal p.face p.coupon (p.base_yield + r / 10000) p.maturity.toNat -
          priceVal p.face p.coupon p.base_yield p.maturity.toNat
        loss_pct := (priceVal p.face p.coupon (p.base_yield + r / 10000) p.maturity.toNat -
          priceVal p.face p.coupon p.base_yield p.maturity.toNat) /
          priceVal p.face p.coupon p.base_yield p.maturity.toNat * 100 } := by
  simp only [valuate, get_bond_price_eq _ _ _ _ h, Option.bind_eq_bind,
    Option.some_bind]
  rfl

/-- Sound economics of one row: positive prices, non-positive loss, shocked
price still positive, under a non-negative shock. -/
lemma valuate_bounds (r : ℚ) (p : Position) (hr : 0 ≤ r)
    (hf : 0 < p.face) (hc : 0 ≤ p.coupon) (hm : 1 ≤ p.maturity)
    (hb : 0 ≤ p.base_yield) :
    ∃ v, valuate r p = some v ∧ 0 < v.initial_price ∧ v.loss ≤ 0 ∧
      0 < v.loss + v.initial_price := by
  have hmn : 1 ≤ p.maturity.toNat := by omega
  have hby : (-1 : ℚ) < p.base_yield := by linarith
  have hny : p.base_yield ≤ p.base_yield + r / 10000 := by
    have : (0 : ℚ) ≤ r / 10000 := by positivity
    linarith
  have hny1 : (-1 : ℚ) < p.base_yield + r / 10000 := lt_of_lt_of_le hby hny
  refine ⟨_, valuate_eq r p hm, ?_, ?_, ?_⟩
  · exact priceVal_pos _ _ _ _ hmn hf hc hby
  · have := priceVal_anti p.face p.coupon p.base_yield (p.base_yield + r / 10000)
      p.maturity.toNat hmn hf.le hc hby hny
    simpa using sub_nonpos.mpr this
  · have hsp := priceVal_pos p.face p.coupon (p.base_yield + r / 10000)
      p.maturity.toNat hmn hf hc hny1
    simpa using hsp

/-- Valuing a catalog of sound positions under a non-negative shock succeeds,
and the summed losses and initial prices obey the sign constraints needed for
the aggregate loss fraction. -/
lemma evaluate_catalog_sums (r : ℚ) (hr : 0 ≤ r) :
    ∀ catalog : List Position,
      (∀ p ∈ catalog, 0 < p.face ∧ 0 ≤ p.coupon ∧ 1 ≤ p.maturity ∧ 0 ≤ p.base_yield) →
      ∃ vals, evaluate_catalog catalog r = some vals ∧
        0 ≤ (vals.map Valuation.initial_price).sum ∧
        (vals.map Valuation.loss).sum ≤ 0 ∧
        0 ≤ (vals.map Valuation.loss).sum + (vals.map Valuation.initial_price).sum ∧
        (catalog ≠ [] → 0 < (vals.map Valuation.initial_price).sum ∧
          0 < (vals.map Valuation.loss).sum + (vals.map Valuation.initial_price).sum) := by
  intro catalog
  induction catalog with
  | nil =>
      intro _
      exact ⟨[], by simp [evaluate_catalog], by simp, by simp, by simp, by simp⟩
  | cons p rest ih =>
      intro hvalid
      obtain ⟨hf, hc, hm, hb⟩ := hvalid p (by simp)
      obtain ⟨v, hv, hip, hloss, hsp⟩ := valuate_bounds r p hr hf hc hm hb
      obtain ⟨vals, hvals, h1, h2, h3, _⟩ :=
        ih fun q hq => hvalid q (List.mem_cons_of_mem p hq)
      refine ⟨v :: vals, ?_, ?_, ?_, ?_, fun _ => ⟨?_, ?_⟩⟩
      · rw [evaluate_catalog, hv, hvals]
        rfl
      · simp only [List.map_cons, List.sum_cons]; linarith
      · simp only [List.map_cons, List.sum_cons]; linarith
      · simp only [List.map_cons, List.sum_cons]; linarith
      · simp only [List.map_cons, List.sum_cons]; linarith
      · simp only [List.map_cons, List.sum_cons]; linarith

/-- The aggregate loss fraction is in `[0, 1)` when initial value is positive,
total loss is non-positive, and total shocked value is positive. -/
lemma htm_loss_pct_bounds (vals : List Valuation)
    (hi : 0 < (vals.map Valuation.initial_price).sum)
    (hl : (vals.map Valuation.loss).sum ≤ 0)
    (hs : 0 < (vals.map Valuation.loss).sum + (vals.map Valuation.initial_price).sum) :
    0 ≤ htm_loss_pct_of vals ∧ htm_loss_pct_of vals < 1 := by
  refine ⟨abs_nonneg _, ?_⟩
  rw [htm_loss_pct_of]
  have hq : (vals.map Valuation.loss).sum / (vals.map Valuation.initial_price).sum ≤ 0 :=
    div_nonpos_iff.mpr (Or.inr ⟨hl, hi.le⟩)
  rw [abs_of_nonpos hq, ← neg_div, div_lt_iff₀ hi]
  linarith

/-- Geometric closed form: for `y ≠ 0` the price is the perpetuity value plus a
decaying correction.  Used to evaluate `priceVal` at concrete inputs. -/
lemma priceVal_closed (face coupon y : ℚ) (m : ℕ) (hm : 1 ≤ m)
    (hy : y ≠ 0) (h1y : 1 + y ≠ 0) :
    priceVal face coupon y m =
      face * coupon / y + (face - face * coupon / y) / (1 + y) ^ m := by
  induction m with
  | zero => omega
  | succ k ih =>
      rcases Nat.eq_zero_or_pos k with h0 | hk
      · subst h0
        rw [priceVal_one]
        field_simp
        ring
      · rw [priceVal_succ face coupon y k hk, ih hk]
        field_simp
        ring

/-- When the aggregate loss fraction is below 1 the waterfall always returns a
result, with the cash-tier fields independent of the fraction and equity given
by sequential subtraction of the two realized losses. -/
lemma run_waterfall_ok (withdrawal_pct htm_loss_pct : ℚ) (hf : htm_loss_pct < 1) :
    ∃ w, run_waterfall withdrawal_pct htm_loss_pct = Except.ok w ∧
      w.withdrawal_amount = withdrawal_amount withdrawal_pct ∧
      w.cash_used = cash_used withdrawal_pct ∧
      w.afs_loss_realized = afs_loss_realized withdrawal_pct ∧
      w.current_equity =
        initial_equity - w.afs_loss_realized - w.htm_loss_realized := by
  have hne : 1 - htm_loss_pct ≠ 0 := by
    intro h
    rw [sub_eq_zero] at h
    exact absurd h.symm (ne_of_lt hf)
  simp only [run_waterfall]
  split_ifs with hA
  · exact ⟨_, rfl, rfl, rfl, rfl, rfl⟩
  · refine ⟨_, rfl, rfl, rfl, rfl, ?_⟩
    show initial_equity - afs_loss_realized withdrawal_pct =
      initial_equity - afs_loss_realized withdrawal_pct - 0
    ring

/-- Every position of the fixed catalog has positive face, non-negative
coupon, maturity at least 1 and non-negative base yield. -/
lemma portfolio_data_valid :
    ∀ p ∈ portfolio_data,
      0 < p.face ∧ 0 ≤ p.coupon ∧ 1 ≤ p.maturity ∧ 0 ≤ p.base_yield := by
  intro p hp
  simp only [portfolio_data, List.mem_cons, List.not_mem_nil, or_false] at hp
  rcases hp with rfl | rfl | rfl | rfl <;>
    exact ⟨by norm_num, by norm_num, by norm_num, by norm_num⟩

/-! ## Claims -/

/-- C1: for every position with integer maturity ≥ 1, coupon rate ≥ 0,
face ≥ 0, and yieldRate > -1, `get_bond_price` returns exactly the sum over
periods `t = 1..maturity` of `CF_t / (1 + yieldRate)^t`, where
`CF_t = face * coupon` for `t < maturity` and
`CF_maturity = face * coupon + face`. -/
theorem C1_price_formula (face coupon : ℚ) (maturity : ℤ) (yieldRate : ℚ)
    (hm : 1 ≤ maturity) (hc : 0 ≤ coupon) (hf : 0 ≤ face) (hy : -1 < yieldRate) :
    get_bond_price face coupon maturity yieldRate =
      some (spec_price face coupon maturity.toNat yieldRate) := by
  rw [get_bond_price_eq _ _ _ _ hm,
    priceVal_eq_spec_price face coupon yieldRate maturity.toNat (by omega)]

/-- Witness for C1 at face 100, coupon 1/20, maturity 2, yield 0. -/
theorem C1_price_formula_witness :
    (1 : ℤ) ≤ 2 ∧ (0 : ℚ) ≤ 1 / 20 ∧ (0 : ℚ) ≤ 100 ∧ (-1 : ℚ) < 0 ∧
      get_bond_price 100 (1 / 20) 2 0 =
        some (spec_price 100 (1 / 20) (2 : ℤ).toNat 0) :=
  ⟨by norm_num, by norm_num, by norm_num, by norm_num,
    C1_price_formula 100 (1 / 20) 2 0 (by norm_num) (by norm_num) (by norm_num)
      (by norm_num)⟩

/-- C5: for every fixed position (face > 0, coupon ≥ 0, maturity ≥ 1) and
every pair of yields y₁ < y₂ with y₁, y₂ > -1, the price at y₁ strictly
exceeds the price at y₂: the price is strictly decreasing in the yield. -/
theorem C5_price_monotone_in_yield (face coupon : ℚ) (maturity : ℤ)
    (y₁ y₂ p₁ p₂ : ℚ) (hf : 0 < face) (hc : 0 ≤ coupon) (hm : 1 ≤ maturity)
    (hy₁ : -1 < y₁) (h12 : y₁ < y₂)
    (hp₁ : get_bond_price face coupon maturity y₁ = some p₁)
    (hp₂ : get_bond_price face coupon maturity y₂ = some p₂) :
    p₂ < p₁ := by
  rw [get_bond_price_eq _ _ _ _ hm] at hp₁ hp₂
  have e₁ := Option.some_inj.mp hp₁
  have e₂ := Option.some_inj.mp hp₂
  subst e₁
  subst e₂
  exact priceVal_strictAnti face coupon y₁ y₂ maturity.toNat (by omega) hf hc hy₁ h12

/-- Witness for C5: a one-period 100-face zero-coupon bond at yields 0 and 1. -/
theorem C5_price_monotone_in_yield_witness :
    get_bond_price 100 0 1 0 = some 100 ∧ get_bond_price 100 0 1 1 = some 50 ∧
      (50 : ℚ) < 100 := by
  have h₁ : get_bond_price 100 0 1 0 = some 100 := by
    rw [get_bond_price_eq 100 0 1 0 (by norm_num), Int.toNat_one, priceVal_one]
    norm_num
  have h₂ : get_bond_price 100 0 1 1 = some 50 := by
    rw [get_bond_price_eq 100 0 1 1 (by norm_num), Int.toNat_one, priceVal_one]
    norm_num
  exact ⟨h₁, h₂, C5_price_monotone_in_yield 100 0 1 0 1 100 50 (by norm_num)
    (by norm_num) (by norm_num) (by norm_num) (by norm_num) h₁ h₂⟩

/-- C8: for every position with face ≥ 0, maturity ≥ 1, and yieldRate equal
to the coupon rate (coupon > -1), the price equals the face exactly (par
pricing, exact over rationals). -/
theorem C8_par_pricing (face coupon : ℚ) (maturity : ℤ)
    (hf : 0 ≤ face) (hm : 1 ≤ maturity) (hc : -1 < coupon) :
    get_bond_price face coupon maturity coupon = some face := by
  rw [get_bond_price_eq _ _ _ _ hm,
    priceVal_par face coupon maturity.toNat (by omega)
      (ne_of_gt (by linarith : (0 : ℚ) < 1 + coupon))]

/-- Witness for C8 at face 100, coupon 1/20 = 5%, maturity 3. -/
theorem C8_par_pricing_witness :
    (0 : ℚ) ≤ 100 ∧ (1 : ℤ) ≤ 3 ∧ (-1 : ℚ) < 1 / 20 ∧
      get_bond_price 100 (1 / 20) 3 (1 / 20) = some 100 :=
  ⟨by norm_num, by norm_num, by norm_num,
    C8_par_pricing 100 (1 / 20) 3 (by norm_num) (by norm_num) (by norm_num)⟩

/-- C2: for every combination of scenario parameters with aggregate loss
fraction < 1 (no degenerate-loss error), the waterfall returns a result whose
final equity equals `initialEquity - afsLossRealized - htmLossRealized`
exactly, and equity is unchanged when no loss tier is engaged (the cash tier
never changes equity). -/
theorem C2_equity_conservation (withdrawal_pct htm_loss_pct : ℚ)
    (hf : htm_loss_pct < 1) :
    ∃ w, run_waterfall withdrawal_pct htm_loss_pct = Except.ok w ∧
      w.current_equity = initial_equity - w.afs_loss_realized - w.htm_loss_realized ∧
      (w.afs_loss_realized = 0 ∧ w.htm_loss_realized = 0 →
        w.current_equity = initial_equity) := by
  obtain ⟨w, hw, _, _, _, heq⟩ := run_waterfall_ok withdrawal_pct htm_loss_pct hf
  refine ⟨w, hw, heq, ?_⟩
  rintro ⟨ha, hh⟩
  rw [heq, ha, hh]
  ring

/-- Witness for C2 at withdrawal 25 %, loss fraction 1/2. -/
theorem C2_equity_conservation_witness :
    (1 : ℚ) / 2 < 1 ∧
      ∃ w, run_waterfall 25 (1 / 2) = Except.ok w ∧
        w.current_equity = initial_equity - w.afs_loss_realized - w.htm_loss_realized ∧
        (w.afs_loss_realized = 0 ∧ w.htm_loss_realized = 0 →
          w.current_equity = initial_equity) :=
  ⟨by norm_num, C2_equity_conservation 25 (1 / 2) (by norm_num)⟩

/-- C3: for every scenario in which the withdrawal amount is at most the cash
reserves, the waterfall realizes no AFS loss and no HTM loss and the final
equity equals the initial equity (only the cash tier is engaged). -/
theorem C3_cash_only (withdrawal_pct htm_loss_pct : ℚ)
    (hw : withdrawal_amount withdrawal_pct ≤ cash_reserves) :
    ∃ w, run_waterfall withdrawal_pct htm_loss_pct = Except.ok w ∧
      w.afs_loss_realized = 0 ∧ w.htm_loss_realized = 0 ∧
      w.current_equity = initial_equity := by
  have h0 : remaining_after_cash withdrawal_pct = 0 := by
    rw [remaining_after_cash, cash_used, min_eq_right hw, sub_self]
  have hafs : afs_loss_realized withdrawal_pct = 0 := by
    rw [afs_loss_realized, h0]
    norm_num
  have hra : remaining_after_afs withdrawal_pct = 0 := by
    rw [remaining_after_afs, h0]
    norm_num
  refine ⟨⟨withdrawal_amount withdrawal_pct, cash_used withdrawal_pct, 0, 0, 0,
    initial_equity⟩, ?_, rfl, rfl, rfl⟩
  simp only [run_waterfall, hra, hafs, lt_self_iff_false, if_false]
  norm_num

/-- Witness for C3 at withdrawal 5 % (9000 ≤ 15000 of cash). -/
theorem C3_cash_only_witness :
    withdrawal_amount 5 ≤ cash_reserves ∧
      ∃ w, run_waterfall 5 (7 / 10) = Except.ok w ∧
        w.afs_loss_realized = 0 ∧ w.htm_loss_realized = 0 ∧
        w.current_equity = initial_equity := by
  have hw : withdrawal_amount 5 ≤ cash_reserves := by
    norm_num [withdrawal_amount, total_deposits, cash_reserves]
  exact ⟨hw, C3_cash_only 5 (7 / 10) hw⟩

/-- Counterexample to C4: at withdrawal 50 % and aggregate loss fraction 2
(≥ 1, with demand remaining after the cash and AFS tiers), the waterfall does
not signal an error — it returns a result with a negative HTM face-sold
value. -/
theorem C4_counterexample :
    (1 : ℚ) ≤ 2 ∧ 0 < remaining_after_afs 50 ∧
      run_waterfall 50 2 =
        Except.ok ⟨90000, 15000, 2500, -52500, -105000, 117500⟩ := by
  have hrc : remaining_after_cash 50 = 75000 := by
    norm_num [remaining_after_cash, cash_used, withdrawal_amount, total_deposits,
      cash_reserves]
  have hneed : afs_needed 50 = 250000 / 3 := by
    rw [afs_needed, hrc]
    norm_num
  have hra : remaining_after_afs 50 = 52500 := by
    rw [remaining_after_afs, hrc, hneed]
    norm_num [afs_assets]
  have hafs : afs_loss_realized 50 = 2500 := by
    rw [afs_loss_realized, hrc, hneed]
    norm_num [afs_assets]
  refine ⟨by norm_num, by rw [hra]; norm_num, ?_⟩
  simp only [run_waterfall, hra, hafs]
  norm_num [withdrawal_amount, cash_used, total_deposits, cash_reserves,
    initial_equity]

/-- C4 amended: with demand remaining after the cash and AFS tiers, an
aggregate loss fraction of exactly 1 aborts with a division-by-zero error
(not a distinct degenerate-loss error), while a fraction strictly above 1 is
not signalled at all: the waterfall silently returns a negative HTM face-sold
value. -/
theorem C4_degenerate_loss (withdrawal_pct htm_loss_pct : ℚ)
    (hdemand : 0 < remaining_after_afs withdrawal_pct) :
    (htm_loss_pct = 1 →
      run_waterfall withdrawal_pct htm_loss_pct =
        Except.error WaterfallError.zeroDivisionError) ∧
    (1 < htm_loss_pct →
      ∃ w, run_waterfall withdrawal_pct htm_loss_pct = Except.ok w ∧
        w.htm_face_needed < 0) := by
  constructor
  · intro h1
    subst h1
    simp only [run_waterfall, if_pos hdemand, sub_self]
    norm_num
  · intro hgt
    have hne : 1 - htm_loss_pct ≠ 0 := by
      intro h
      rw [sub_eq_zero] at h
      exact absurd h (ne_of_lt hgt)
    simp only [run_waterfall, if_pos hdemand, if_neg hne]
    exact ⟨_, rfl, div_neg_of_pos_of_neg hdemand (by linarith)⟩

/-- Witness for the amended C4 at withdrawal 50 %, loss fraction 2. -/
theorem C4_degenerate_loss_witness :
    ∃ w, run_waterfall 50 2 = Except.ok w ∧ w.htm_face_needed < 0 := by
  have hrc : remaining_after_cash 50 = 75000 := by
    norm_num [remaining_after_cash, cash_used, withdrawal_amount, total_deposits,
      cash_reserves]
  have hdemand : 0 < remaining_after_afs 50 := by
    rw [remaining_after_afs, hrc]
    norm_num [afs_needed, hrc, afs_assets]
  exact (C4_degenerate_loss 50 2 hdemand).2 (by norm_num)

/-- Counterexample to C9: a position with negative face (face = -1000,
maturity 5) is not rejected — the price operation silently returns a
(negative) value instead of signalling an InvalidPosition error. -/
theorem C9_counterexample :
    (-1000 : ℚ) < 0 ∧ get_bond_price (-1000) (1 / 50) 5 (1 / 50) = some (-1000) := by
  refine ⟨by norm_num, ?_⟩
  rw [get_bond_price_eq _ _ _ _ (by norm_num),
    priceVal_par (-1000) (1 / 50) ((5 : ℤ)).toNat (by norm_num) (by norm_num)]

/-- C9 amended: a position with maturity < 1 makes `get_bond_price` abort
(the Python raises an uncaught IndexError on the empty cash-flow list), but a
position with negative face, maturity ≥ 1 and yield ≠ -1 is silently priced —
no InvalidPosition error exists in the code.  (At yield exactly -1 the Python
divides by the zero discount factor `(1 + y) ** (t + 1)` and raises
ZeroDivisionError, so the silent-pricing half is stated only for
yield ≠ -1.) -/
theorem C9_invalid_position (face coupon : ℚ) (maturity : ℤ) (y : ℚ) :
    (maturity < 1 → get_bond_price face coupon maturity y = none) ∧
    (face < 0 → 1 ≤ maturity → y ≠ -1 →
      ∃ v, get_bond_price face coupon maturity y = some v) :=
  ⟨fun h => get_bond_price_none face coupon maturity y h,
   fun _ hm _ => ⟨_, get_bond_price_eq face coupon maturity y hm⟩⟩

/-- Witness for the amended C9: maturity 0 aborts; face -1000 is priced. -/
theorem C9_invalid_position_witness :
    get_bond_price (-1000) (1 / 50) 0 (1 / 50) = none ∧
      ∃ v, get_bond_price (-1000) (1 / 50) 5 (1 / 50) = some v :=
  ⟨(C9_invalid_position (-1000) (1 / 50) 0 (1 / 50)).1 (by norm_num),
   (C9_invalid_position (-1000) (1 / 50) 5 (1 / 50)).2 (by norm_num) (by norm_num)
     (by norm_num)⟩

/-- C6: for every non-empty catalog of positions with positive face,
non-negative coupon, maturity ≥ 1, non-negative base yields, and a
non-negative rate shock, the evaluation succeeds, the total initial price is
nonzero (so the ratio is well defined), and the aggregate loss fraction
`|totalLoss| / totalInitialPrice` lies in [0, 1). -/
theorem C6_aggregate_loss_fraction (catalog : List Position) (rate_shock_bps : ℚ)
    (hne : catalog ≠ []) (hr : 0 ≤ rate_shock_bps)
    (hvalid : ∀ p ∈ catalog,
      0 < p.face ∧ 0 ≤ p.coupon ∧ 1 ≤ p.maturity ∧ 0 ≤ p.base_yield) :
    ∃ vals, evaluate_catalog catalog rate_shock_bps = some vals ∧
      (vals.map Valuation.initial_price).sum ≠ 0 ∧
      0 ≤ htm_loss_pct_of vals ∧ htm_loss_pct_of vals < 1 := by
  obtain ⟨vals, hv, _, h2, _, hpos⟩ :=
    evaluate_catalog_sums rate_shock_bps hr catalog hvalid
  obtain ⟨hi, hs⟩ := hpos hne
  obtain ⟨hge, hlt⟩ := htm_loss_pct_bounds vals hi h2 hs
  exact ⟨vals, hv, ne_of_gt hi, hge, hlt⟩

/-- Witness for C6: the fixed catalog under a 300 bps shock. -/
theorem C6_aggregate_loss_fraction_witness :
    portfolio_data ≠ [] ∧ (0 : ℚ) ≤ 300 ∧
      (∀ p ∈ portfolio_data,
        0 < p.face ∧ 0 ≤ p.coupon ∧ 1 ≤ p.maturity ∧ 0 ≤ p.base_yield) ∧
      ∃ vals, evaluate_catalog portfolio_data 300 = some vals ∧
        (vals.map Valuation.initial_price).sum ≠ 0 ∧
        0 ≤ htm_loss_pct_of vals ∧ htm_loss_pct_of vals < 1 := by
  have hne : portfolio_data ≠ [] := by simp [portfolio_data]
  exact ⟨hne, by norm_num, portfolio_data_valid,
    C6_aggregate_loss_fraction portfolio_data 300 hne (by norm_num)
      portfolio_data_valid⟩

/-- Counterexample to C7: two positions with equal face 1000, equal coupon
1 %, equal base yield 10 % and maturities 20 < 30, under a 500 bps shock: the
longer-maturity position has the strictly *smaller* |lossPct|
(≈ 46.72 % < ≈ 47.09 %), refuting the claimed duration ordering. -/
theorem C7_counterexample :
    ∃ v₁ v₂, valuate 500 ⟨1000, 1 / 100, 20, 1 / 10⟩ = some v₁ ∧
      valuate 500 ⟨1000, 1 / 100, 30, 1 / 10⟩ = some v₂ ∧
      |v₂.loss_pct| < |v₁.loss_pct| := by
  refine ⟨_, _, valuate_eq 500 _ (by norm_num), valuate_eq 500 _ (by norm_num), ?_⟩
  have ht20 : ((20 : ℤ)).toNat = 20 := rfl
  have ht30 : ((30 : ℤ)).toNat = 30 := rfl
  have hny : (1 : ℚ) / 10 + 500 / 10000 = 3 / 20 := by norm_num
  dsimp only
  rw [ht20, ht30, hny,
    priceVal_closed 1000 (1 / 100) (3 / 20) 20 (by norm_num) (by norm_num) (by norm_num),
    priceVal_closed 1000 (1 / 100) (3 / 20) 30 (by norm_num) (by norm_num) (by norm_num),
    priceVal_closed 1000 (1 / 100) (1 / 10) 20 (by norm_num) (by norm_num) (by norm_num),
    priceVal_closed 1000 (1 / 100) (1 / 10) 30 (by norm_num) (by norm_num) (by norm_num)]
  rw [abs_of_neg (by norm_num), abs_of_neg (by norm_num)]
  norm_num

/-- C7 amended: the duration ordering holds for positions at par (coupon equal
to base yield, the case of every position in the fixed catalog): among two
positions with equal face > 0, equal coupon ≥ 0 and base yield equal to the
coupon but different maturities ≥ 1, the longer-maturity position has strictly
larger |lossPct| for every strictly positive rate shock. -/

theorem C7_duration_ordering_par (face coupon rate_shock_bps : ℚ) (m₁ m₂ : ℤ)
    (v₁ v₂ : Valuation) (hf : 0 < face) (hc : 0 ≤ coupon) (hr : 0 < rate_shock_bps)
    (hm₁ : 1 ≤ m₁) (h12 : m₁ < m₂)
    (hv₁ : valuate rate_shock_bps ⟨face, coupon, m₁, coupon⟩ = some v₁)
    (hv₂ : valuate rate_shock_bps ⟨face, coupon, m₂, coupon⟩ = some v₂) :
    |v₁.loss_pct| < |v₂.loss_pct| := by
  rw [valuate_eq rate_shock_bps ⟨face, coupon, m₁, coupon⟩ hm₁] at hv₁
  rw [valuate_eq rate_shock_bps ⟨face, coupon, m₂, coupon⟩
    (show (1 : ℤ) ≤ m₂ by omega)] at hv₂
  have e₁ := Option.some_inj.mp hv₁
  have e₂ := Option.some_inj.mp hv₂
  subst e₁
  subst e₂
  dsimp only
  have hyc : coupon < coupon + rate_shock_bps / 10000 := by
    have : (0 : ℚ) < rate_shock_bps / 10000 := by positivity
    linarith
  have hc1 : (-1 : ℚ) < coupon := by linarith
  have hpar₁ : priceVal face coupon coupon m₁.toNat = face :=
    priceVal_par face coupon m₁.toNat (by omega)
      (ne_of_gt (by linarith : (0 : ℚ) < 1 + coupon))
  have hpar₂ : priceVal face coupon coupon m₂.toNat = face :=
    priceVal_par face coupon m₂.toNat (by omega)
      (ne_of_gt (by linarith : (0 : ℚ) < 1 + coupon))
  have hsp₁ : priceVal face coupon (coupon + rate_shock_bps / 10000) m₁.toNat < face := by
    have h := priceVal_strictAnti face coupon coupon (coupon + rate_shock_bps / 10000)
      m₁.toNat (by omega) hf hc hc1 hyc
    rw [hpar₁] at h
    exact h
  have hsp₂ : priceVal face coupon (coupon + rate_shock_bps / 10000) m₂.toNat < face := by
    have h := priceVal_strictAnti face coupon coupon (coupon + rate_shock_bps / 10000)
      m₂.toNat (by omega) hf hc hc1 hyc
    rw [hpar₂] at h
    exact h
  have hmat : priceVal face coupon (coupon + rate_shock_bps / 10000) m₂.toNat <
      priceVal face coupon (coupon + rate_shock_bps / 10000) m₁.toNat :=
    priceVal_maturity_strictAnti face coupon _ m₁.toNat m₂.toNat (by omega) (by omega)
      hf hc hyc
  rw [hpar₁, hpar₂]
  have habs : ∀ sp : ℚ, sp < face →
      |(sp - face) / face * 100| = (face - sp) / face * 100 := by
    intro sp h
    rw [abs_of_neg (mul_neg_of_neg_of_pos
      (div_neg_of_neg_of_pos (by linarith) hf) (by norm_num))]
    ring
  rw [habs _ hsp₁, habs _ hsp₂]
  have hnum : (face - priceVal face coupon (coupon + rate_shock_bps / 10000) m₁.toNat) / face <
      (face - priceVal face coupon (coupon + rate_shock_bps / 10000) m₂.toNat) / face := by
    apply div_lt_div_of_pos_right ?_ hf
    linarith
  exact mul_lt_mul_of_pos_right hnum (by norm_num)

/-- Witness for the amended C7: par zero-coupon positions with maturities 1
and 2 under a 10000 bps shock lose 50 % and 75 % respectively. -/
theorem C7_duration_ordering_par_witness :
    valuate 10000 ⟨100, 0, 1, 0⟩ = some ⟨100, 1, 50, -50, -50⟩ ∧
      valuate 10000 ⟨100, 0, 2, 0⟩ = some ⟨100, 1, 25, -75, -75⟩ ∧
      |(⟨100, 1, 50, -50, -50⟩ : Valuation).loss_pct| <
        |(⟨100, 1, 25, -75, -75⟩ : Valuation).loss_pct| := by
  have h₁ : valuate 10000 ⟨100, 0, 1, 0⟩ = some ⟨100, 1, 50, -50, -50⟩ := by
    rw [valuate_eq 10000 _ (by norm_num)]
    dsimp only
    rw [Int.toNat_one, priceVal_one, priceVal_one]
    norm_num
  have h₂ : valuate 10000 ⟨100, 0, 2, 0⟩ = some ⟨100, 1, 25, -75, -75⟩ := by
    rw [valuate_eq 10000 _ (by norm_num)]
    dsimp only
    rw [show ((2 : ℤ)).toNat = 1 + 1 from rfl, priceVal_succ _ _ _ 1 le_rfl,
      priceVal_succ _ _ _ 1 le_rfl, priceVal_one, priceVal_one]
    norm_num
  exact ⟨h₁, h₂, C7_duration_ordering_par 100 0 10000 1 2 _ _ (by norm_num)
    (by norm_num) (by norm_num) (by norm_num) (by norm_num) h₁ h₂⟩

/-- C10: noninterference between the two scenario inputs.  Two runs that
differ only in the withdrawal percentage produce identical per-position
valuations and identical aggregate loss fraction; two runs that differ only
in the rate shock (both non-negative) succeed and agree on the withdrawal
amount and the cash drawn in the cash tier. -/
theorem C10_noninterference (r pct₁ pct₂ r₁ r₂ pct : ℚ)
    (hr₁ : 0 ≤ r₁) (hr₂ : 0 ≤ r₂) :
    ((run_scenario r pct₁).map fun s => (s.valuations, s.htm_loss_pct)) =
      ((run_scenario r pct₂).map fun s => (s.valuations, s.htm_loss_pct)) ∧
    ((run_scenario r₁ pct).map fun s =>
        s.waterfall.map fun w => (w.withdrawal_amount, w.cash_used)) =
      ((run_scenario r₂ pct).map fun s =>
        s.waterfall.map fun w => (w.withdrawal_amount, w.cash_used)) := by
  constructor
  · cases h : evaluate_catalog portfolio_data r <;> simp [run_scenario, h]
  · have key : ∀ r' : ℚ, 0 ≤ r' →
        ((run_scenario r' pct).map fun s =>
          s.waterfall.map fun w => (w.withdrawal_amount, w.cash_used)) =
        some (Except.ok (withdrawal_amount pct, cash_used pct)) := by
      intro r' hr'
      obtain ⟨vals, hv, _, h2, _, hpos⟩ :=
        evaluate_catalog_sums r' hr' portfolio_data portfolio_data_valid
      obtain ⟨hi, hs⟩ := hpos (by simp [portfolio_data])
      have hlt := (htm_loss_pct_bounds vals hi h2 hs).2
      obtain ⟨w, hw, hwa, hcu, _, _⟩ := run_waterfall_ok pct _ hlt
      simp [run_scenario, hv, hw, hwa, hcu, Except.map]
    rw [key r₁ hr₁, key r₂ hr₂]

/-- Witness for C10 at rate shock 300 bps, withdrawal percentages 10 and 25,
and rate shocks 0 and 500 bps at withdrawal 40 %. -/
theorem C10_noninterference_witness :
    (0 : ℚ) ≤ 0 ∧ (0 : ℚ) ≤ 500 ∧
      (((run_scenario 300 10).map fun s => (s.valuations, s.htm_loss_pct)) =
        ((run_scenario 300 25).map fun s => (s.valuations, s.htm_loss_pct)) ∧
      ((run_scenario 0 40).map fun s =>
          s.waterfall.map fun w => (w.withdrawal_amount, w.cash_used)) =
        ((run_scenario 500 40).map fun s =>
          s.waterfall.map fun w => (w.withdrawal_amount, w.cash_used))) :=
  ⟨le_refl 0, by norm_num,
    C10_noninterference 300 10 25 0 500 40 (le_refl 0) (by norm_num)⟩
